import Mathlib

/-!
Verification development for the iquit ingestion-enrichment pipeline
(src/services/tmdbService.ts, src/services/csvService.ts and the host page).

The TypeScript source is shallowly embedded: async functions whose awaits
only fetch data from the TMDB service become pure Lean functions over an
explicit environment `Env` (search results, TV-detail statuses, and the
JavaScript `Date` valuation), the module-level cancellation flag and the
localStorage contents become explicit state threaded through the batch
loop, and host callbacks (`progressCallback`, `onItemProcessed`) become an
event trace.  The batch loop applies the per-record upserts of one batch
in input order (one admissible completion order of the `Promise.all`
fan-out); the fan-out's other interleavings are modelled separately by
`runBatchSchedule`.
-/

namespace Iquit

/-- JavaScript truthiness of a possibly-absent string: `undefined`, `null`
and the empty string are falsy. -/
def jsTruthy : Option String → Bool
  | none => false
  | some s => !(s == "")

/-- JavaScript `a || b` on possibly-absent strings. -/
def jsOrOpt (a b : Option String) : Option String :=
  if jsTruthy a then a else b

/-! ## Character-list string primitives

The JavaScript string operations the source relies on
(`trim`, `toLowerCase`, `includes`, suffix tests) are modelled directly
over the character list of a string. -/

/-- Is the first list a leading segment of the second? -/
def listStartsWith : List Char → List Char → Bool
  | [], _ => true
  | _ :: _, [] => false
  | a :: as, b :: bs => a == b && listStartsWith as bs

/-- Does the first list occur contiguously inside the second? -/
def listOccursIn (needle : List Char) : List Char → Bool
  | [] => needle.isEmpty
  | b :: bs => listStartsWith needle (b :: bs) || listOccursIn needle bs

/-- Does the first list end the second? -/
def listEndsWith (suffix hay : List Char) : Bool :=
  listStartsWith suffix.reverse hay.reverse

/-- `toLowerCase`. -/
def toLowerList (cs : List Char) : List Char :=
  cs.map Char.toLower

/-- `toLowerCase` on strings. -/
def jsToLower (s : String) : String :=
  String.mk (toLowerList s.toList)

/-- `trim`: strip leading and trailing whitespace. -/
def jsTrim (s : String) : String :=
  String.mk
    ((((s.toList).dropWhile Char.isWhitespace).reverse.dropWhile
      Char.isWhitespace).reverse)

/-! ## cleanTitle (tmdbService.ts)

`title.replace(/: .*$|S\d+:E\d+.*$/i, '')` deletes the suffix from the
leftmost position where either `": "` occurs or a season/episode marker
`S<digits>:E<digits>` (case-insensitive) starts; then all parenthesised
groups `\([^)]*\)` are removed; then a trailing `: Limited Series`
(case-insensitive) is removed; then whitespace is trimmed. -/

/-- Does a `S<digits>:E<digits>` marker (case-insensitive) start here? -/
def seMarkerAt (cs : List Char) : Bool :=
  match cs with
  | c :: rest =>
    if c == 'S' || c == 's' then
      let ds := rest.takeWhile Char.isDigit
      let r2 := rest.dropWhile Char.isDigit
      if ds.isEmpty then false
      else
        match r2 with
        | ':' :: e :: r3 =>
          (e == 'E' || e == 'e') && !(r3.takeWhile Char.isDigit).isEmpty
        | _ => false
    else false
  | [] => false

/-- Does a literal `": "` occur here? -/
def colonSpaceAt (cs : List Char) : Bool :=
  match cs with
  | ':' :: ' ' :: _ => true
  | _ => false

/-- Delete everything from the leftmost `": "` or `S<n>:E<n>` marker on. -/
def cutAtMarker : List Char → List Char
  | [] => []
  | c :: rest =>
    if colonSpaceAt (c :: rest) || seMarkerAt (c :: rest) then []
    else c :: cutAtMarker rest

/-- Remove all `\([^)]*\)` groups, left to right (fuel-bounded recursion;
the fuel `cs.length` always suffices since each removal consumes at least
two characters). -/
def stripParensFuel : Nat → List Char → List Char
  | 0, cs => cs
  | fuel + 1, cs =>
    match cs with
    | [] => []
    | '(' :: rest =>
      if rest.contains ')' then
        stripParensFuel fuel ((rest.dropWhile (fun c => !(c == ')'))).drop 1)
      else '(' :: rest
    | c :: rest => c :: stripParensFuel fuel rest

def stripParens (cs : List Char) : List Char :=
  stripParensFuel cs.length cs

/-- Remove a trailing `: Limited Series` (case-insensitive). -/
def stripLimitedSeries (s : String) : String :=
  if listEndsWith ": limited series".toList (toLowerList s.toList) then
    String.mk (s.toList.take (s.toList.length - ": limited series".toList.length))
  else s

/-- `cleanTitle` from tmdbService.ts. -/
def cleanTitle (title : String) : String :=
  let s1 := String.mk (cutAtMarker title.toList)
  let s2 := String.mk (stripParens s1.toList)
  jsTrim (stripLimitedSeries s2)

/-! ## Data model -/

/-- One row of the parsed CSV, keyed by its header columns
(`item.Title`, `item.Date`); a missing column is `none`. -/
structure CSVData where
  Title : Option String
  Date : Option String
deriving DecidableEq, Repr

/-- `NetflixViewingItem` from `@/types`, as produced by csvService.ts. -/
structure NetflixViewingItem where
  title : String
  date : String
  rawTitle : String
  rawDate : String
deriving DecidableEq, Repr

/-- A TMDB multi-search result, holding exactly the fields the source
reads.  `id` is kept as the string used when building map keys; the
floating-point `vote_average` is carried as an opaque integer-coded value
since no claim involves rating arithmetic. -/
structure SearchResult where
  id : String
  media_type : Option String
  title : Option String
  name : Option String
  poster_path : Option String
  backdrop_path : Option String
  overview : Option String
  release_date : Option String
  first_air_date : Option String
  last_air_date : Option String
  vote_average : Option Int
deriving DecidableEq, Repr

/-- The external world as the pipeline observes it:
`search q` is `searchMedia(q).results` (failures are already degraded to
`[]` inside `searchMedia`); `tvDetails id` is the `status` field of
`getTVShowDetails(id)` (`none` models a `null` response); `dateTime s`
models `new Date(s).getTime()` and `isoDay s` models
`new Date(s).toISOString().split('T')[0]`. -/
structure Env where
  search : String → List SearchResult
  tvDetails : String → Option String
  dateTime : String → Int
  isoDay : String → String

/-- `MediaItem` from `@/types`.  `type` keeps the runtime string (the
source's `as 'movie' | 'tv'` cast is a no-op at runtime); fields the
minimal constructor leaves `undefined` are modelled by `none` / `""` /
`false`, which the source only ever consumes through falsy checks. -/
structure MediaItem where
  id : String
  title : String
  type : String
  posterPath : Option String
  backdropPath : Option String
  overview : Option String
  releaseDate : Option String
  firstAirDate : Option String
  lastAirDate : Option String
  status : String
  continuing : Bool
  watchedDate : String
  voteAverage : Option Int
  watchCount : Nat
deriving DecidableEq, Repr

/-- The merge store: a JavaScript `Map<string, MediaItem>` in insertion
order.  `Array.from(map.values())` is `map Prod.snd`. -/
abbrev Store := List (String × MediaItem)

/-- `Map.has`. -/
def mapHas : Store → String → Bool
  | [], _ => false
  | (k', _) :: rest, k => k' == k || mapHas rest k

/-- `Map.get` (`undefined` becomes `none`). -/
def mapGet : Store → String → Option MediaItem
  | [], _ => none
  | (k', v') :: rest, k => if k' == k then some v' else mapGet rest k

/-- `Map.set`: replace in place if the key exists, else append. -/
def mapSet : Store → String → MediaItem → Store
  | [], k, v => [(k, v)]
  | (k', v') :: rest, k, v =>
    if k' == k then (k, v) :: rest else (k', v') :: mapSet rest k v

/-! ## tmdbService.ts — current revision -/

def TMDB_IMG_URL : String := "https://image.tmdb.org/t/p"
def POSTER_SIZE : String := "w342"
def BACKDROP_SIZE : String := "w1280"

/-- `result.media_type || (result.first_air_date ? 'tv' : 'movie')`. -/
def jsMediaType (result : SearchResult) : String :=
  match jsOrOpt result.media_type none with
  | some s => s
  | none => if jsTruthy result.first_air_date then "tv" else "movie"

/-- `createMediaItem` (without the surrounding Promise): for a TV-typed
result the show detail is fetched to fill `status`/`continuing`. -/
def createMediaItem (env : Env) (result : SearchResult) (watchedDate : String) :
    MediaItem :=
  let mediaType := jsMediaType result
  let sc : String × Bool :=
    if mediaType == "tv" then
      match env.tvDetails result.id with
      | some st => (st, st == "Returning Series" || st == "In Production")
      | none => ("", false)
    else ("", false)
  { id := result.id
    title := (jsOrOpt result.title result.name).getD ""
    type := mediaType
    posterPath :=
      if jsTruthy result.poster_path then
        some (TMDB_IMG_URL ++ "/" ++ POSTER_SIZE ++ result.poster_path.getD "")
      else none
    backdropPath :=
      if jsTruthy result.backdrop_path then
        some (TMDB_IMG_URL ++ "/" ++ BACKDROP_SIZE ++ result.backdrop_path.getD "")
      else none
    overview := if jsTruthy result.overview then result.overview else none
    releaseDate := result.release_date
    firstAirDate := result.first_air_date
    lastAirDate := result.last_air_date
    status := sc.1
    continuing := sc.2
    watchedDate := watchedDate
    voteAverage := result.vote_average
    watchCount := 1 }

/-- `createMinimalMediaItem`. -/
def createMinimalMediaItem (title watchedDate : String) : MediaItem :=
  { id := "unknown-" ++ title
    title := title
    type := "movie"
    posterPath := none
    backdropPath := none
    overview := none
    releaseDate := none
    firstAirDate := none
    lastAirDate := none
    status := ""
    continuing := false
    watchedDate := watchedDate
    voteAverage := none
    watchCount := 1 }

/-- `updateExistingMediaItem`: bump the watch count
(`(watchCount || 1) + 1`) and keep the most recent watched date.  The
source reads the entry with a non-null assertion; callers only invoke it
when the key is present, so the `none` branch is unreachable there. -/
def updateExistingMediaItem (env : Env) (mediaMap : Store) (key : String)
    (watchedDate : String) : Store :=
  match mapGet mediaMap key with
  | none => mediaMap
  | some it =>
    let it1 := { it with watchCount := (if it.watchCount == 0 then 1 else it.watchCount) + 1 }
    let it2 :=
      if env.dateTime watchedDate > env.dateTime it1.watchedDate then
        { it1 with watchedDate := watchedDate }
      else it1
    mapSet mediaMap key it2

/-- `processViewingItem`: search on the cleaned title, then upsert under
`"<id>-<mediaType>"` for a match or `"unknown-<originalTitle>"` when the
result list is empty. -/
def processViewingItem (env : Env) (item : NetflixViewingItem) (mediaMap : Store) :
    Store :=
  let cleanedTitle := cleanTitle item.title
  match env.search cleanedTitle with
  | result :: _ =>
    let mediaType := jsMediaType result
    let key := result.id ++ "-" ++ mediaType
    if mapHas mediaMap key then
      updateExistingMediaItem env mediaMap key item.date
    else
      mapSet mediaMap key (createMediaItem env result item.date)
  | [] =>
    let key := "unknown-" ++ item.title
    if !(mapHas mediaMap key) then
      mapSet mediaMap key (createMinimalMediaItem item.title item.date)
    else
      updateExistingMediaItem env mediaMap key item.date

/-- `processBatch` under the in-input-order completion schedule of the
`Promise.all` fan-out (other schedules: see `runBatchSchedule`). -/
def processBatch (env : Env) (batch : List NetflixViewingItem) (mediaMap : Store) :
    Store :=
  batch.foldl (fun m it => processViewingItem env it m) mediaMap

/-- The merge key a record ends up under, determined by the environment:
the head search result's `"<id>-<mediaType>"`, or `"unknown-<title>"`. -/
def keyOf (env : Env) (item : NetflixViewingItem) : String :=
  match env.search (cleanTitle item.title) with
  | result :: _ => result.id ++ "-" ++ jsMediaType result
  | [] => "unknown-" ++ item.title

/-- The fresh item `processViewingItem` inserts when its key is absent:
the enriched item for a match, the minimal item otherwise. -/
def upsertNewItem (env : Env) (item : NetflixViewingItem) : MediaItem :=
  match env.search (cleanTitle item.title) with
  | result :: _ => createMediaItem env result item.date
  | [] => createMinimalMediaItem item.title item.date

/-! ## Persistence (localStorage) and cancellation -/

structure StatsData where
  totalWatched : Nat
  movieCount : Nat
  tvCount : Nat
  watchedByDay : List (String × Nat)
  watchedByMonth : List (String × Nat)
  watchedByYear : List (String × Nat)
  mostWatchedShows : List MediaItem
  continueWatchingShows : List MediaItem
deriving DecidableEq, Repr

/-- The `iquit-*` keys of localStorage.  The first four model the
processing checkpoint (`partItems` is the source's `partialItems` list),
the last three the completed-results snapshot. -/
structure PersistState where
  viewingHistory : Option (List NetflixViewingItem)
  processedCount : Option Nat
  partItems : Option (List MediaItem)
  processingActive : Bool
  mediaItemsSaved : Option (List MediaItem)
  statsSaved : Option StatsData
  timestampSaved : Option Nat
deriving DecidableEq, Repr

def emptyPersist : PersistState :=
  { viewingHistory := none, processedCount := none, partItems := none
    processingActive := false, mediaItemsSaved := none, statsSaved := none
    timestampSaved := none }

/-- `saveProcessingState(viewingHistory, processedCount, partialItems)`. -/
def saveProcessingState (p : PersistState) (viewingHistory : List NetflixViewingItem)
    (processedCount : Nat) (partItems : List MediaItem) : PersistState :=
  { p with viewingHistory := some viewingHistory
           processedCount := some processedCount
           partItems := some partItems
           processingActive := true }

/-- `clearProcessingState`: removes the four checkpoint keys. -/
def clearProcessingState (p : PersistState) : PersistState :=
  { p with viewingHistory := none, processedCount := none, partItems := none
           processingActive := false }

/-- `completeProcessing`: removes only the liveness key. -/
def completeProcessing (p : PersistState) : PersistState :=
  { p with processingActive := false }

/-- `saveDataToLocalStorage(mediaItems, stats)`. -/
def saveDataToLocalStorage (p : PersistState) (mediaItems : List MediaItem)
    (stats : StatsData) (now : Nat) : PersistState :=
  { p with mediaItemsSaved := some mediaItems, statsSaved := some stats
           timestampSaved := some now }

/-- `clearLocalStorageData`. -/
def clearLocalStorageData (p : PersistState) : PersistState :=
  { p with mediaItemsSaved := none, statsSaved := none, timestampSaved := none }

/-- `cancelProcessing`: sets the module-level cancellation flag and clears
the persisted processing state. -/
def cancelProcessing : Bool × PersistState → Bool × PersistState
  | (_, p) => (true, clearProcessingState p)

/-- `resetCancellation`: the flag becomes false no matter its prior value. -/
def resetCancellation (_flag : Bool) : Bool := false

/-- What `loadProcessingState` hands back to the host. -/
structure LoadedState where
  viewingHistory : Option (List NetflixViewingItem)
  processedCount : Nat
  partItems : Option (List MediaItem)
  isProcessing : Bool
deriving DecidableEq, Repr

def loadProcessingState (p : PersistState) : LoadedState :=
  { viewingHistory := p.viewingHistory
    processedCount := p.processedCount.getD 0
    partItems := p.partItems
    isProcessing := p.processingActive }

/-! ## Callbacks and the batch loop -/

/-- Observable host-callback activity of one run: `progress m n` is a
`progressCallback(m, n)` call, `discovered it` an `onItemProcessed(it)`
call, and `completion` marks the normal loop exit (the point at which
`completeProcessing` runs and the sorted result is produced). -/
inductive Event where
  | progress (processed total : Nat) : Event
  | discovered (item : MediaItem) : Event
  | completion : Event
deriving DecidableEq, Repr

/-- JavaScript `hay.includes(needle)`. -/
def jsIncludes (hay needle : String) : Bool :=
  listOccursIn needle.toList hay.toList

/-- `reportProcessedItem`: for each batch item in order, report every
stored item (in store order) whose lowercased title contains (or is
contained in) the cleaned batch title and whose watched date string
equals the batch item's date. -/
def reportEvents (mediaMap : Store) (batchItems : List NetflixViewingItem) :
    List Event :=
  (batchItems.map (fun b =>
    let cleaned := jsToLower (cleanTitle b.title)
    (((mediaMap.map Prod.snd).filter (fun it =>
        (jsIncludes (jsToLower it.title) cleaned ||
          jsIncludes cleaned (jsToLower it.title))
          && it.watchedDate == b.date)).map Event.discovered))).flatten

/-- The completed run's `sort((a, b) => dateTime(b) - dateTime(a))`: a
stable sort placing larger watched-date values first. -/
def sortByDateDesc (env : Env) (l : List MediaItem) : List MediaItem :=
  l.insertionSort (fun a b => env.dateTime b.watchedDate ≤ env.dateTime a.watchedDate)

/-- Everything one `processViewingHistory` call produces or leaves behind:
its return value (`mediaItems`, `cancelled`), the final merge store, the
final cancellation flag, the localStorage contents and the callback
trace. -/
structure RunOutput where
  mediaItems : List MediaItem
  cancelled : Bool
  store : Store
  flag : Bool
  persist : PersistState
  events : List Event
deriving Repr

/-- The `for (let i = startIndex; i < length; i += 40)` loop.  Each
iteration: honor the cancellation flag, process one batch, fire the
progress callback, fire the discovery callbacks, and checkpoint when
`i % 10 === 0 && i > startIndex`.  `cancelDuring i` means the host called
`cancelProcessing` while iteration `i`'s batch fan-out was in flight (the
only suspension points are the awaits inside the iteration); the flag it
sets is honored at the next iteration's check.  The recursion is driven
by a fuel that `processViewingHistory` picks large enough to never run
out (the `fuel = 0` branch is unreachable from there). -/
def processLoop (env : Env) (cancelDuring : Nat → Bool)
    (history : List NetflixViewingItem) (startIndex : Nat) :
    Nat → Nat → Bool → Store → PersistState → List Event → RunOutput
  | 0, _, flag, mediaMap, persist, events =>
    { mediaItems := [], cancelled := false, store := mediaMap, flag := flag
      persist := persist, events := events }
  | fuel + 1, i, flag, mediaMap, persist, events =>
    if i < history.length then
      if flag then
        { mediaItems := mediaMap.map Prod.snd, cancelled := true
          store := mediaMap, flag := flag, persist := persist, events := events }
      else
        let batch := (history.drop i).take 40
        let mediaMap1 := processBatch env batch mediaMap
        let fp : Bool × PersistState :=
          if cancelDuring i then cancelProcessing (flag, persist) else (flag, persist)
        let events1 := events ++ [Event.progress (i + batch.length) history.length]
        let events2 :=
          events1 ++ (if batch.length > 0 then reportEvents mediaMap1 batch else [])
        let persist2 :=
          if i % 10 == 0 && decide (i > startIndex) then
            saveProcessingState fp.2 history i (mediaMap1.map Prod.snd)
          else fp.2
        processLoop env cancelDuring history startIndex fuel (i + 40) fp.1 mediaMap1
          persist2 events2
    else
      { mediaItems := sortByDateDesc env (mediaMap.map Prod.snd)
        cancelled := false, store := mediaMap, flag := flag
        persist := completeProcessing persist
        events := events ++ [Event.completion] }

/-- `processViewingHistory(viewingHistory, progressCallback,
onItemProcessed, startIndex, existingMediaMap)`: resets the cancellation
flag, then runs the batch loop.  `initialFlag` is the module flag's value
when the call starts; the first line of the source discards it. -/
def processViewingHistory (env : Env) (cancelDuring : Nat → Bool)
    (initialFlag : Bool) (viewingHistory : List NetflixViewingItem)
    (startIndex : Nat) (existingMediaMap : Option Store)
    (persist : PersistState) : RunOutput :=
  let flag := resetCancellation initialFlag
  let mediaMap := existingMediaMap.getD []
  processLoop env cancelDuring viewingHistory startIndex
    (viewingHistory.length + 1) startIndex flag mediaMap persist []

/-! ## Stats -/

/-- Bump a `Record<string, number>` entry (object keys keep insertion
order). -/
def bumpCount : List (String × Nat) → String → List (String × Nat)
  | [], k => [(k, 1)]
  | (k', n) :: rest, k =>
    if k' == k then (k', n + 1) :: rest else (k', n) :: bumpCount rest k

/-- `updateWatchCounts`: bucket one item's watched date by day, month
(`day.substring(0, 7)`) and year (`day.substring(0, 4)`). -/
def updateWatchCounts (env : Env) (item : MediaItem)
    (acc : List (String × Nat) × List (String × Nat) × List (String × Nat)) :
    List (String × Nat) × List (String × Nat) × List (String × Nat) :=
  let day := env.isoDay item.watchedDate
  let month := day.take 7
  let year := day.take 4
  (bumpCount acc.1 day, bumpCount acc.2.1 month, bumpCount acc.2.2 year)

/-- `calculateWatchCountsByPeriod`. -/
def calculateWatchCountsByPeriod (env : Env) (mediaItems : List MediaItem) :
    List (String × Nat) × List (String × Nat) × List (String × Nat) :=
  mediaItems.foldl (fun acc it => updateWatchCounts env it acc) ([], [], [])

/-- `sort((a, b) => (b.watchCount || 0) - (a.watchCount || 0))`. -/
def sortByCountDesc (l : List MediaItem) : List MediaItem :=
  l.insertionSort (fun a b => b.watchCount ≤ a.watchCount)

/-- `generateStats`. -/
def generateStats (env : Env) (mediaItems : List MediaItem) : StatsData :=
  let movies := mediaItems.filter (fun it => it.type == "movie")
  let tvShows := mediaItems.filter (fun it => it.type == "tv")
  let per := calculateWatchCountsByPeriod env mediaItems
  { totalWatched := mediaItems.length
    movieCount := movies.length
    tvCount := tvShows.length
    watchedByDay := per.1
    watchedByMonth := per.2.1
    watchedByYear := per.2.2
    mostWatchedShows := (sortByCountDesc mediaItems).take 10
    continueWatchingShows := sortByDateDesc env (tvShows.filter (fun s => s.continuing)) }

/-! ## tmdbService.ts — earliest revision (src/services/tmdbService.ts)

Same search/clean/detail layer, but the merge logic is inlined in
`processViewingHistory` and the unmatched branch bumps only the watch
count: it never touches `watchedDate` on a repeat. -/

namespace Legacy

/-- The inlined per-record merge of the earliest revision, under the
in-order completion schedule of its batch fan-out (batch size 5 there;
consecutive batches compose into one in-order scan of the input). -/
def processViewingItem (env : Env) (item : NetflixViewingItem) (mediaMap : Store) :
    Store :=
  let cleanedTitle := cleanTitle item.title
  match env.search cleanedTitle with
  | result :: _ =>
    let mediaType := jsMediaType result
    let key := result.id ++ "-" ++ mediaType
    match mapGet mediaMap key with
    | some it =>
      let it1 := { it with watchCount := (if it.watchCount == 0 then 1 else it.watchCount) + 1 }
      let it2 :=
        if env.dateTime item.date > env.dateTime it1.watchedDate then
          { it1 with watchedDate := item.date }
        else it1
      mapSet mediaMap key it2
    | none => mapSet mediaMap key (createMediaItem env result item.date)
  | [] =>
    let key := "unknown-" ++ item.title
    match mapGet mediaMap key with
    | none => mapSet mediaMap key (createMinimalMediaItem item.title item.date)
    | some it =>
      -- this revision bumps the count but leaves watchedDate unchanged
      mapSet mediaMap key
        { it with watchCount := (if it.watchCount == 0 then 1 else it.watchCount) + 1 }

def processViewingHistory (env : Env) (viewingHistory : List NetflixViewingItem) :
    List MediaItem :=
  sortByDateDesc env
    ((viewingHistory.foldl (fun m it => processViewingItem env it m) []).map Prod.snd)

end Legacy

/-! ## csvService.ts

`Papa.parse` with `header: true` hands over a list of header-keyed rows;
both revisions keep the rows where `item.Title && item.Date` is truthy
and map them to `NetflixViewingItem`s.  One revision additionally applies
`.slice(0, 50)` to the mapped list. -/

namespace CsvFull

/-- `parseNetflixCSV`, revision without the cap. -/
def parseNetflixCSV (rows : List CSVData) : List NetflixViewingItem :=
  (rows.filter (fun item => jsTruthy item.Title && jsTruthy item.Date)).map
    (fun item =>
      { title := item.Title.getD "", date := item.Date.getD ""
        rawTitle := item.Title.getD "", rawDate := item.Date.getD "" })

end CsvFull

namespace CsvCapped

/-- `parseNetflixCSV`, revision ending in `.slice(0, 50)`. -/
def parseNetflixCSV (rows : List CSVData) : List NetflixViewingItem :=
  ((rows.filter (fun item => jsTruthy item.Title && jsTruthy item.Date)).map
    (fun item =>
      { title := item.Title.getD "", date := item.Date.getD ""
        rawTitle := item.Title.getD "", rawDate := item.Date.getD "" })).take 50

end CsvCapped

/-! ## The batch fan-out as a scheduled interleaving

`processBatch` runs `processViewingItem` for every batch record under
`Promise.all`.  After a record's search response arrives, its
continuation inspects the map synchronously; the matched-create path then
suspends again inside `await createMediaItem(...)` (for TV it awaits the
detail fetch) and only afterwards runs `mediaMap.set(key, mediaItem)` —
without re-checking the map.  A schedule fixes the order in which these
continuations run; the batch loop above corresponds to the schedule that
finishes each record before starting the next. -/

/-- Where one record's task stands: search not yet resolved, suspended
inside `createMediaItem`, or finished. -/
inductive TaskPhase where
  | start : TaskPhase
  | creating (key : String) (result : SearchResult) (date : String) : TaskPhase
  | done : TaskPhase
deriving DecidableEq, Repr

/-- Run one ready continuation of a record's task. -/
def stepTask (env : Env) (item : NetflixViewingItem) :
    TaskPhase → Store → TaskPhase × Store
  | TaskPhase.start, mediaMap =>
    (match env.search (cleanTitle item.title) with
     | result :: _ =>
       let mediaType := jsMediaType result
       let key := result.id ++ "-" ++ mediaType
       if mapHas mediaMap key then
         (TaskPhase.done, updateExistingMediaItem env mediaMap key item.date)
       else
         (TaskPhase.creating key result item.date, mediaMap)
     | [] =>
       let key := "unknown-" ++ item.title
       if !(mapHas mediaMap key) then
         (TaskPhase.done, mapSet mediaMap key (createMinimalMediaItem item.title item.date))
       else
         (TaskPhase.done, updateExistingMediaItem env mediaMap key item.date))
  | TaskPhase.creating key result date, mediaMap =>
    (TaskPhase.done, mapSet mediaMap key (createMediaItem env result date))
  | TaskPhase.done, mediaMap => (TaskPhase.done, mediaMap)

/-- Step the task at position `idx` of the batch. -/
def stepBatchAt (env : Env) (idx : Nat) :
    List (NetflixViewingItem × TaskPhase) × Store →
    List (NetflixViewingItem × TaskPhase) × Store
  | (tasks, mediaMap) =>
    match tasks[idx]? with
    | none => (tasks, mediaMap)
    | some (item, phase) =>
      let r := stepTask env item phase mediaMap
      (tasks.set idx (item, r.1), r.2)

/-- Run a batch under an explicit interleaving: follow the scheduled
continuation order, then (as `Promise.all` guarantees every task settles)
finish any remaining phases in position order. -/
def runBatchSchedule (env : Env) (batch : List NetflixViewingItem)
    (schedule : List Nat) (mediaMap : Store) : Store :=
  let start := (batch.map (fun it => (it, TaskPhase.start)), mediaMap)
  let mid := schedule.foldl (fun st idx => stepBatchAt env idx st) start
  let fin := (List.range batch.length).foldl
    (fun st idx => stepBatchAt env idx (stepBatchAt env idx st)) mid
  fin.2

/-! ## Host glue (Index page)

On reload with an active checkpoint the host seeds the merge store from
the saved partial items, keyed `` `${item.id}-${item.type}` ``, and calls
`processViewingHistory(viewingHistory, ..., processedCount, mediaMap)`. -/

/-- The resume seeding loop of the Index page. -/
def hostSeedMap (partItems : List MediaItem) : Store :=
  partItems.foldl (fun m it => mapSet m (it.id ++ "-" ++ it.type) it) []

/-! ## Derived accounting used to state the specification's invariants -/

/-- How many of the given records end up under merge key `k`. -/
def countKey (env : Env) (recs : List NetflixViewingItem) (k : String) : Nat :=
  (recs.filter (fun r => keyOf env r == k)).length

/-- The watched-date values (`new Date(...).getTime()`) of the records
that end up under merge key `k`. -/
def dateValsOf (env : Env) (recs : List NetflixViewingItem) (k : String) : List Int :=
  (recs.filter (fun r => keyOf env r == k)).map (fun r => env.dateTime r.date)

/-! ## Concrete fixtures for the closed theorems and witnesses -/

/-- No `cancelProcessing` call arrives during the run. -/
def noCancel : Nat → Bool := fun _ => false

/-- A movie search result with TMDB id 7. -/
def resMovieA : SearchResult :=
  ⟨"7", some "movie", some "Alpha", none, none, none, none, none, none, none, none⟩

/-- Every search for `"A"` matches `resMovieA`; all dates collapse to 0. -/
def envA : Env :=
  { search := fun q => if q == "A" then [resMovieA] else []
    tvDetails := fun _ => none
    dateTime := fun _ => 0
    isoDay := fun _ => "1970-01-01" }

def recA : NetflixViewingItem := ⟨"A", "d0", "A", "d0"⟩

/-- 81 identical viewing records: three batches of 40/40/1. -/
def recsA : List NetflixViewingItem := List.replicate 81 recA

/-- 41 identical viewing records: two batches of 40/1. -/
def recs41 : List NetflixViewingItem := List.replicate 41 recA

/-- A TV search result with TMDB id 9. -/
def resTvB : SearchResult :=
  ⟨"9", some "tv", none, some "Beta", none, none, none, none, some "2020-01-01", none, none⟩

/-- Every search for `"B"` matches `resTvB`, whose detail fetch reports a
finished show. -/
def envB : Env :=
  { search := fun q => if q == "B" then [resTvB] else []
    tvDetails := fun _ => some "Ended"
    dateTime := fun _ => 0
    isoDay := fun _ => "1970-01-01" }

def recB : NetflixViewingItem := ⟨"B", "d0", "B", "d0"⟩

/-- No search matches; the date string `"d5"` parses to 5, all others
to 1. -/
def envC : Env :=
  { search := fun _ => []
    tvDetails := fun _ => none
    dateTime := fun s => if s == "d5" then 5 else 1
    isoDay := fun _ => "1970-01-01" }

def recT1 : NetflixViewingItem := ⟨"T", "d1", "T", "d1"⟩
def recT5 : NetflixViewingItem := ⟨"T", "d5", "T", "d5"⟩

/-- A CSV row with both a title and a date. -/
def vrow : CSVData := ⟨some "T", some "D"⟩

/-- The item the current pipeline produces for `recT1` then `recT5`:
both merged, the later (larger) date kept. -/
def itT5 : MediaItem :=
  { id := "unknown-T", title := "T", type := "movie", posterPath := none
    backdropPath := none, overview := none, releaseDate := none
    firstAirDate := none, lastAirDate := none, status := "", continuing := false
    watchedDate := "d5", voteAverage := none, watchCount := 2 }

/-- The running bookkeeping invariant of the merge store: after the
records in `processed` have been merged, every key the store lacks has no
record mapped to it, and every stored item's watch count is the number of
records mapped to its key while its watched date carries the maximum
date value among them. -/
def StoreInv (env : Env) (processed : List NetflixViewingItem) (m : Store) : Prop :=
  ∀ k : String,
    (mapGet m k = none → countKey env processed k = 0) ∧
    (∀ it, mapGet m k = some it →
      it.watchCount = countKey env processed k ∧
      env.dateTime it.watchedDate ∈ dateValsOf env processed k ∧
      ∀ d ∈ dateValsOf env processed k, d ≤ env.dateTime it.watchedDate)

/-- The item stored under an unmatched key keeps the minimal-item shape:
default kind `movie`, id equal to the key, the original title. -/
def UnmatchedShape (t : String) (m : Store) : Prop :=
  ∀ it, mapGet m ("unknown-" ++ t) = some it →
    it.type = "movie" ∧ it.id = "unknown-" ++ t ∧ it.title = t

/-! ## Merge-store lemmas -/

theorem mapGet_mapSet_self (m : Store) (k : String) (v : MediaItem) :
    mapGet (mapSet m k v) k = some v := by
  induction m with
  | nil => simp [mapSet, mapGet]
  | cons e rest ih =>
    obtain ⟨k', v'⟩ := e
    by_cases h : k' = k
    · subst h; simp [mapSet, mapGet]
    · simp [mapSet, mapGet, h, ih]

theorem mapGet_mapSet_ne (m : Store) (k k₂ : String) (v : MediaItem)
    (h : k₂ ≠ k) : mapGet (mapSet m k v) k₂ = mapGet m k₂ := by
  induction m with
  | nil => simp [mapSet, mapGet, Ne.symm h]
  | cons e rest ih =>
    obtain ⟨k', v'⟩ := e
    by_cases hk : k' = k
    · subst hk
      simp [mapSet, mapGet, Ne.symm h]
    · simp only [mapSet, beq_iff_eq, hk, if_false, mapGet, ih]

theorem mapHas_eq_isSome (m : Store) (k : String) :
    mapHas m k = (mapGet m k).isSome := by
  induction m with
  | nil => simp [mapHas, mapGet]
  | cons e rest ih =>
    obtain ⟨k', v'⟩ := e
    by_cases h : k' = k
    · subst h; simp [mapHas, mapGet]
    · simp [mapHas, mapGet, h, ih]

theorem keys_mapSet_of_has (m : Store) (k : String) (v : MediaItem)
    (h : mapHas m k = true) :
    (mapSet m k v).map Prod.fst = m.map Prod.fst := by
  induction m with
  | nil => simp [mapHas] at h
  | cons e rest ih =>
    obtain ⟨k', v'⟩ := e
    by_cases hk : k' = k
    · subst hk; simp [mapSet]
    · simp only [mapHas, Bool.or_eq_true, beq_iff_eq, hk, false_or] at h
      simp only [mapSet, beq_iff_eq, hk, if_false, List.map_cons, ih h]

theorem keys_mapSet_of_not (m : Store) (k : String) (v : MediaItem)
    (h : mapHas m k = false) :
    (mapSet m k v).map Prod.fst = m.map Prod.fst ++ [k] := by
  induction m with
  | nil => simp [mapSet]
  | cons e rest ih =>
    obtain ⟨k', v'⟩ := e
    by_cases hk : k' = k
    · subst hk; simp [mapHas] at h
    · simp only [mapHas, Bool.or_eq_false_iff, beq_eq_false_iff_ne] at h
      simp only [mapSet, beq_iff_eq, hk, if_false, List.map_cons, ih h.2,
        List.cons_append]

theorem length_mapSet_le (m : Store) (k : String) (v : MediaItem) :
    (mapSet m k v).length ≤ m.length + 1 := by
  induction m with
  | nil => simp [mapSet]
  | cons e rest ih =>
    obtain ⟨k', v'⟩ := e
    by_cases hk : k' = k
    · subst hk; simp [mapSet]
    · simp only [mapSet, beq_iff_eq, hk, if_false, List.length_cons]
      omega

theorem mapHas_false_not_mem (m : Store) (k : String) (h : mapHas m k = false) :
    k ∉ m.map Prod.fst := by
  induction m with
  | nil => simp
  | cons e rest ih =>
    obtain ⟨k', v'⟩ := e
    simp only [mapHas, Bool.or_eq_false_iff, beq_eq_false_iff_ne] at h
    simp only [List.map_cons, List.mem_cons]
    rintro (rfl | hm)
    · exact h.1 rfl
    · exact ih h.2 hm

theorem keys_update (env : Env) (m : Store) (k : String) (d : String) :
    (updateExistingMediaItem env m k d).map Prod.fst = m.map Prod.fst := by
  unfold updateExistingMediaItem
  cases h : mapGet m k with
  | none => rfl
  | some it =>
    have hhas : mapHas m k = true := by rw [mapHas_eq_isSome, h]; rfl
    exact keys_mapSet_of_has _ _ _ hhas

theorem length_update_le (env : Env) (m : Store) (k : String) (d : String) :
    (updateExistingMediaItem env m k d).length ≤ m.length + 1 := by
  unfold updateExistingMediaItem
  cases h : mapGet m k with
  | none => exact Nat.le_succ _
  | some it => exact length_mapSet_le _ _ _

/-- `processViewingItem` with its let-bindings zeta-reduced and the search
outcome fixed: the matched branches. -/
theorem processViewingItem_matched (env : Env) (r : NetflixViewingItem)
    (m : Store) (result : SearchResult) (rest : List SearchResult)
    (hs : env.search (cleanTitle r.title) = result :: rest) :
    processViewingItem env r m =
      (if mapHas m (result.id ++ "-" ++ jsMediaType result) then
        updateExistingMediaItem env m (result.id ++ "-" ++ jsMediaType result) r.date
      else
        mapSet m (result.id ++ "-" ++ jsMediaType result)
          (createMediaItem env result r.date)) := by
  unfold processViewingItem
  dsimp only
  rw [hs]

/-- `processViewingItem` when the search comes back empty. -/
theorem processViewingItem_unmatched (env : Env) (r : NetflixViewingItem)
    (m : Store) (hs : env.search (cleanTitle r.title) = []) :
    processViewingItem env r m =
      (if !(mapHas m ("unknown-" ++ r.title)) then
        mapSet m ("unknown-" ++ r.title) (createMinimalMediaItem r.title r.date)
      else
        updateExistingMediaItem env m ("unknown-" ++ r.title) r.date) := by
  unfold processViewingItem
  dsimp only
  rw [hs]

theorem keys_processViewingItem (env : Env) (r : NetflixViewingItem) (m : Store)
    (h : (m.map Prod.fst).Nodup) :
    ((processViewingItem env r m).map Prod.fst).Nodup := by
  cases hs : env.search (cleanTitle r.title) with
  | cons result rest =>
    rw [processViewingItem_matched env r m result rest hs]
    by_cases hh : mapHas m (result.id ++ "-" ++ jsMediaType result) = true
    · simpa [hh, keys_update] using h
    · rw [Bool.not_eq_true] at hh
      simp only [hh, Bool.false_eq_true, if_false]
      rw [keys_mapSet_of_not _ _ _ hh]
      exact List.Nodup.append h (List.nodup_singleton _)
        (by simpa using fun hm => (mapHas_false_not_mem _ _ hh) hm)
  | nil =>
    rw [processViewingItem_unmatched env r m hs]
    by_cases hh : mapHas m ("unknown-" ++ r.title) = true
    · simpa [hh, keys_update] using h
    · rw [Bool.not_eq_true] at hh
      simp only [hh, Bool.not_false, if_true]
      rw [keys_mapSet_of_not _ _ _ hh]
      exact List.Nodup.append h (List.nodup_singleton _)
        (by simpa using fun hm => (mapHas_false_not_mem _ _ hh) hm)

theorem length_processViewingItem_le (env : Env) (r : NetflixViewingItem)
    (m : Store) : (processViewingItem env r m).length ≤ m.length + 1 := by
  cases hs : env.search (cleanTitle r.title) with
  | cons result rest =>
    rw [processViewingItem_matched env r m result rest hs]
    by_cases hh : mapHas m (result.id ++ "-" ++ jsMediaType result) = true
    · simpa [hh] using length_update_le env m _ r.date
    · rw [Bool.not_eq_true] at hh
      simpa [hh] using length_mapSet_le m _ _
  | nil =>
    rw [processViewingItem_unmatched env r m hs]
    by_cases hh : mapHas m ("unknown-" ++ r.title) = true
    · simpa [hh] using length_update_le env m _ r.date
    · rw [Bool.not_eq_true] at hh
      simpa [hh] using length_mapSet_le m _ _

/-- Every `processViewingItem` call is an upsert at `keyOf env r`:
update if present, insert `upsertNewItem` if absent. -/
theorem processViewingItem_upsert (env : Env) (r : NetflixViewingItem) (m : Store) :
    processViewingItem env r m =
      if mapHas m (keyOf env r) then
        updateExistingMediaItem env m (keyOf env r) r.date
      else mapSet m (keyOf env r) (upsertNewItem env r) := by
  cases hs : env.search (cleanTitle r.title) with
  | cons result rest =>
    rw [processViewingItem_matched env r m result rest hs]
    unfold keyOf upsertNewItem
    rw [hs]
  | nil =>
    rw [processViewingItem_unmatched env r m hs]
    unfold keyOf upsertNewItem
    rw [hs]
    by_cases hh : mapHas m ("unknown-" ++ r.title) = true
    · simp [hh]
    · rw [Bool.not_eq_true] at hh
      simp [hh]

theorem upsertNewItem_watchCount (env : Env) (r : NetflixViewingItem) :
    (upsertNewItem env r).watchCount = 1 := by
  unfold upsertNewItem
  cases env.search (cleanTitle r.title) with
  | cons result rest => simp [createMediaItem]
  | nil => simp [createMinimalMediaItem]

theorem upsertNewItem_watchedDate (env : Env) (r : NetflixViewingItem) :
    (upsertNewItem env r).watchedDate = r.date := by
  unfold upsertNewItem
  cases env.search (cleanTitle r.title) with
  | cons result rest => simp [createMediaItem]
  | nil => simp [createMinimalMediaItem]

theorem update_of_get_some (env : Env) (m : Store) (k d : String) (it : MediaItem)
    (h : mapGet m k = some it) :
    updateExistingMediaItem env m k d =
      mapSet m k
        (let it1 := { it with watchCount := (if it.watchCount == 0 then 1 else it.watchCount) + 1 }
         if env.dateTime d > env.dateTime it1.watchedDate then
           { it1 with watchedDate := d }
         else it1) := by
  unfold updateExistingMediaItem
  rw [h]

/-! ## Counting lemmas -/

theorem countKey_append (env : Env) (a b : List NetflixViewingItem) (k : String) :
    countKey env (a ++ b) k = countKey env a k + countKey env b k := by
  simp [countKey, List.filter_append]

theorem dateValsOf_append (env : Env) (a b : List NetflixViewingItem) (k : String) :
    dateValsOf env (a ++ b) k = dateValsOf env a k ++ dateValsOf env b k := by
  simp [dateValsOf, List.filter_append]

theorem length_dateValsOf (env : Env) (recs : List NetflixViewingItem) (k : String) :
    (dateValsOf env recs k).length = countKey env recs k := by
  simp [dateValsOf, countKey]

theorem countKey_cons_self (env : Env) (r : NetflixViewingItem) (k : String)
    (h : keyOf env r = k) : countKey env [r] k = 1 := by
  simp [countKey, h]

theorem countKey_cons_ne (env : Env) (r : NetflixViewingItem) (k : String)
    (h : keyOf env r ≠ k) : countKey env [r] k = 0 := by
  simp [countKey, h]

theorem dateValsOf_cons_self (env : Env) (r : NetflixViewingItem) (k : String)
    (h : keyOf env r = k) : dateValsOf env [r] k = [env.dateTime r.date] := by
  simp [dateValsOf, h]

theorem dateValsOf_cons_ne (env : Env) (r : NetflixViewingItem) (k : String)
    (h : keyOf env r ≠ k) : dateValsOf env [r] k = [] := by
  simp [dateValsOf, h]

/-! ## The store invariant is maintained -/

theorem storeInv_nil (env : Env) : StoreInv env [] [] := by
  intro k
  refine ⟨fun _ => by simp [countKey], fun it h => ?_⟩
  simp [mapGet] at h

theorem storeInv_step (env : Env) (r : NetflixViewingItem)
    (processed : List NetflixViewingItem) (m : Store)
    (h : StoreInv env processed m) :
    StoreInv env (processed ++ [r]) (processViewingItem env r m) := by
  rw [processViewingItem_upsert]
  by_cases hh : mapHas m (keyOf env r) = true
  · -- the key is present: the stored item is bumped
    have hsome : (mapGet m (keyOf env r)).isSome := by
      rw [← mapHas_eq_isSome, hh]
    obtain ⟨it0, hit0⟩ := Option.isSome_iff_exists.mp hsome
    obtain ⟨hcount0, hmem0, hmax0⟩ := (h (keyOf env r)).2 it0 hit0
    have hpos : 1 ≤ countKey env processed (keyOf env r) := by
      rw [← length_dateValsOf]
      exact List.length_pos.mpr (List.ne_nil_of_mem hmem0)
    have hwc0 : (it0.watchCount == 0) = false := by
      rw [beq_eq_false_iff_ne]
      omega
    simp only [hh, if_true]
    rw [update_of_get_some env m (keyOf env r) r.date it0 hit0]
    simp only [hwc0, Bool.false_eq_true, if_false]
    intro k
    by_cases hk : k = keyOf env r
    · subst hk
      refine ⟨fun hnone => ?_, fun it hit => ?_⟩
      · rw [mapGet_mapSet_self] at hnone
        exact absurd hnone (by simp)
      · rw [mapGet_mapSet_self] at hit
        injection hit with hit
        subst hit
        rw [countKey_append, dateValsOf_append,
          countKey_cons_self env r _ rfl, dateValsOf_cons_self env r _ rfl]
        by_cases hd : env.dateTime r.date > env.dateTime it0.watchedDate
        · simp only [hd, if_true]
          refine ⟨by simp; omega, by simp, ?_⟩
          intro d hd2
          rcases List.mem_append.mp hd2 with hd2 | hd2
          · exact le_of_lt (lt_of_le_of_lt (hmax0 d hd2) (by simpa using hd))
          · simp at hd2
            simp [hd2]
        · simp only [hd, if_false]
          refine ⟨by simp; omega, by simpa using Or.inl hmem0, ?_⟩
          intro d hd2
          rcases List.mem_append.mp hd2 with hd2 | hd2
          · simpa using hmax0 d hd2
          · simp at hd2
            subst hd2
            omega
    · rw [mapGet_mapSet_ne _ _ _ _ hk]
      rw [countKey_append, dateValsOf_append,
        countKey_cons_ne env r k (fun hq => hk hq.symm),
        dateValsOf_cons_ne env r k (fun hq => hk hq.symm)]
      simpa using h k
  · -- the key is absent: a fresh item with count 1 and the record's date
    rw [Bool.not_eq_true] at hh
    have hnone : mapGet m (keyOf env r) = none := by
      have := mapHas_eq_isSome m (keyOf env r)
      rw [hh] at this
      exact Option.not_isSome_iff_eq_none.mp (by rw [← this]; simp)
    have hzero : countKey env processed (keyOf env r) = 0 :=
      (h (keyOf env r)).1 hnone
    have hvnil : dateValsOf env processed (keyOf env r) = [] := by
      have := length_dateValsOf env processed (keyOf env r)
      rw [hzero] at this
      exact List.length_eq_zero.mp this
    simp only [hh, Bool.false_eq_true, if_false]
    intro k
    by_cases hk : k = keyOf env r
    · subst hk
      refine ⟨fun hn => ?_, fun it hit => ?_⟩
      · rw [mapGet_mapSet_self] at hn
        exact absurd hn (by simp)
      · rw [mapGet_mapSet_self] at hit
        injection hit with hit
        subst hit
        rw [countKey_append, dateValsOf_append, hzero, hvnil,
          countKey_cons_self env r _ rfl, dateValsOf_cons_self env r _ rfl,
          upsertNewItem_watchCount, upsertNewItem_watchedDate]
        refine ⟨by omega, by simp, ?_⟩
        intro d hd2
        simp at hd2
        simp [hd2]
    · rw [mapGet_mapSet_ne _ _ _ _ hk]
      rw [countKey_append, dateValsOf_append,
        countKey_cons_ne env r k (fun hq => hk hq.symm),
        dateValsOf_cons_ne env r k (fun hq => hk hq.symm)]
      simpa using h k

theorem storeInv_fold (env : Env) :
    ∀ (recs processed : List NetflixViewingItem) (m : Store),
      StoreInv env processed m →
      StoreInv env (processed ++ recs)
        (recs.foldl (fun acc it => processViewingItem env it acc) m) := by
  intro recs
  induction recs with
  | nil => intro processed m h; simpa using h
  | cons r rs ih =>
    intro processed m h
    have step := storeInv_step env r processed m h
    have := ih (processed ++ [r]) (processViewingItem env r m) step
    simpa [List.append_assoc] using this

/-- The invariant at the end of a full in-order scan from an empty store. -/
theorem storeInv_run (env : Env) (recs : List NetflixViewingItem) :
    StoreInv env recs
      (recs.foldl (fun acc it => processViewingItem env it acc) []) := by
  simpa using storeInv_fold env recs [] [] (storeInv_nil env)

/-! ## Shape preservation at unmatched keys -/

theorem mapGet_update_ne (env : Env) (m : Store) (k d k₂ : String)
    (h : k₂ ≠ k) :
    mapGet (updateExistingMediaItem env m k d) k₂ = mapGet m k₂ := by
  unfold updateExistingMediaItem
  cases hg : mapGet m k with
  | none => rfl
  | some it => exact mapGet_mapSet_ne _ _ _ _ h

theorem mapGet_processViewingItem_ne (env : Env) (r : NetflixViewingItem)
    (m : Store) (k₂ : String) (h : k₂ ≠ keyOf env r) :
    mapGet (processViewingItem env r m) k₂ = mapGet m k₂ := by
  rw [processViewingItem_upsert]
  by_cases hh : mapHas m (keyOf env r) = true
  · simp only [hh, if_true]
    exact mapGet_update_ne _ _ _ _ _ h
  · rw [Bool.not_eq_true] at hh
    simp only [hh, Bool.false_eq_true, if_false]
    exact mapGet_mapSet_ne _ _ _ _ h

theorem update_keeps_identity (env : Env) (m : Store) (k d : String)
    (it it2 : MediaItem) (hit : mapGet m k = some it)
    (hit2 : mapGet (updateExistingMediaItem env m k d) k = some it2) :
    it2.type = it.type ∧ it2.id = it.id ∧ it2.title = it.title := by
  rw [update_of_get_some env m k d it hit, mapGet_mapSet_self] at hit2
  injection hit2 with hit2
  subst hit2
  by_cases hd : env.dateTime d > env.dateTime it.watchedDate
  · simp [hd]
  · simp [hd]

theorem unmatchedShape_step (env : Env) (t : String) (r : NetflixViewingItem)
    (m : Store) (h : UnmatchedShape t m)
    (hr : keyOf env r = "unknown-" ++ t →
      env.search (cleanTitle r.title) = [] ∧ r.title = t) :
    UnmatchedShape t (processViewingItem env r m) := by
  intro it hit
  by_cases hk : keyOf env r = "unknown-" ++ t
  · obtain ⟨hs, hteq⟩ := hr hk
    rw [processViewingItem_upsert] at hit
    by_cases hh : mapHas m (keyOf env r) = true
    · simp only [hh, if_true] at hit
      have hsome : (mapGet m (keyOf env r)).isSome := by
        rw [← mapHas_eq_isSome, hh]
      obtain ⟨it0, hit0⟩ := Option.isSome_iff_exists.mp hsome
      rw [hk] at hit
      obtain ⟨hty, hid, hti⟩ :=
        update_keeps_identity env m _ r.date it0 it (hk ▸ hit0) hit
      obtain ⟨h1, h2, h3⟩ := h it0 (hk ▸ hit0)
      exact ⟨hty.trans h1, hid.trans h2, hti.trans h3⟩
    · rw [Bool.not_eq_true] at hh
      simp only [hh, Bool.false_eq_true, if_false] at hit
      rw [hk, mapGet_mapSet_self] at hit
      injection hit with hit
      subst hit
      unfold upsertNewItem
      rw [hs]
      simp [createMinimalMediaItem, hteq]
  · rw [mapGet_processViewingItem_ne env r m _ (fun he => hk he.symm)] at hit
    exact h it hit

theorem unmatchedShape_nil (t : String) : UnmatchedShape t [] := by
  intro it hit
  simp [mapGet] at hit

theorem unmatchedShape_fold (env : Env) (t : String) :
    ∀ (recs : List NetflixViewingItem) (m : Store), UnmatchedShape t m →
      (∀ r ∈ recs, keyOf env r = "unknown-" ++ t →
        env.search (cleanTitle r.title) = [] ∧ r.title = t) →
      UnmatchedShape t
        (recs.foldl (fun acc it => processViewingItem env it acc) m) := by
  intro recs
  induction recs with
  | nil =>
    intro m h _
    simpa using h
  | cons r rs ih =>
    intro m h hr
    simp only [List.foldl_cons]
    exact ih _ (unmatchedShape_step env t r m h (hr r (by simp)))
      (fun x hx => hr x (by simp [hx]))

theorem string_append_left_cancel {a b c : String} (h : a ++ b = a ++ c) :
    b = c := by
  have h2 := congrArg String.data h
  simp [String.data_append] at h2
  exact String.ext h2

/-! ## Batch-loop lemmas -/

theorem reportEvents_no_completion (m : Store) (b : List NetflixViewingItem) :
    Event.completion ∉ reportEvents m b := by
  intro hmem
  simp only [reportEvents, List.mem_flatten, List.mem_map] at hmem
  obtain ⟨l, ⟨x, _, hl⟩, hmem⟩ := hmem
  subst hl
  simp only [List.mem_map] at hmem
  obtain ⟨it, _, hbad⟩ := hmem
  exact Event.noConfusion hbad

theorem foldl_batch_comp (env : Env) (history : List NetflixViewingItem)
    (i : Nat) (m : Store) :
    List.foldl (fun acc it => processViewingItem env it acc)
      (processBatch env ((history.drop i).take 40) m) (history.drop (i + 40)) =
    List.foldl (fun acc it => processViewingItem env it acc) m
      (history.drop i) := by
  have hdd : history.drop (i + 40) = (history.drop i).drop 40 := by
    rw [List.drop_drop]
  unfold processBatch
  rw [hdd, ← List.foldl_append, List.take_append_drop]

/-- The callback trace of a loop run only ever extends the accumulated
trace it starts from. -/
theorem processLoop_events_extend (env : Env) (sig : Nat → Bool)
    (history : List NetflixViewingItem) (startIndex : Nat) :
    ∀ (fuel i : Nat) (flag : Bool) (m : Store) (p : PersistState)
      (E : List Event),
      ∃ t, (processLoop env sig history startIndex fuel i flag m p E).events =
        E ++ t := by
  intro fuel
  induction fuel with
  | zero =>
    intro i flag m p E
    exact ⟨[], by simp [processLoop]⟩
  | succ fuel ih =>
    intro i flag m p E
    by_cases hi : i < history.length
    · by_cases hf : flag = true
      · subst hf
        exact ⟨[], by simp [processLoop, hi]⟩
      · rw [Bool.not_eq_true] at hf
        subst hf
        have key : ∀ (f2 : Bool) (m2 : Store) (p2 : PersistState) (s : List Event),
            ∃ t, (processLoop env sig history startIndex fuel (i + 40) f2 m2 p2
              (E ++ s)).events = E ++ t := by
          intro f2 m2 p2 s
          obtain ⟨t, ht⟩ := ih (i + 40) f2 m2 p2 (E ++ s)
          exact ⟨s ++ t, by rw [ht, List.append_assoc]⟩
        simp only [processLoop, hi, if_true, Bool.false_eq_true, if_false,
          List.append_assoc]
        exact key _ _ _ _
    · refine ⟨[Event.completion], ?_⟩
      simp [processLoop, hi]

/-- Uncancelled runs: the loop consumes the whole remaining suffix in
order, completes, and reports the sorted store. -/
theorem processLoop_no_cancel (env : Env) (sig : Nat → Bool)
    (history : List NetflixViewingItem) (startIndex : Nat)
    (hsig : ∀ i, sig i = false) :
    ∀ (fuel i : Nat) (m : Store) (p : PersistState) (E : List Event),
      history.length - i < fuel →
      (processLoop env sig history startIndex fuel i false m p E).cancelled = false ∧
      (processLoop env sig history startIndex fuel i false m p E).store =
        List.foldl (fun acc it => processViewingItem env it acc) m
          (history.drop i) ∧
      (processLoop env sig history startIndex fuel i false m p E).mediaItems =
        sortByDateDesc env
          ((processLoop env sig history startIndex fuel i false m p E).store.map
            Prod.snd) ∧
      Event.completion ∈
        (processLoop env sig history startIndex fuel i false m p E).events ∧
      (processLoop env sig history startIndex fuel i false m p E).flag = false := by
  intro fuel
  induction fuel with
  | zero =>
    intro i m p E hfuel
    omega
  | succ fuel ih =>
    intro i m p E hfuel
    by_cases hi : i < history.length
    · simp only [processLoop, hi, if_true, Bool.false_eq_true, if_false, hsig i]
      refine ⟨(ih (i + 40) _ _ _ (by omega)).1, ?_,
        (ih (i + 40) _ _ _ (by omega)).2.2.1,
        (ih (i + 40) _ _ _ (by omega)).2.2.2.1,
        (ih (i + 40) _ _ _ (by omega)).2.2.2.2⟩
      rw [(ih (i + 40) _ _ _ (by omega)).2.1, foldl_batch_comp]
    · have hdrop : history.drop i = [] :=
        List.drop_eq_nil_of_le (by omega)
      simp [processLoop, hi, hdrop]

/-- One unfolding step of the loop: unflagged iteration below the end. -/
theorem processLoop_succ_lt (env : Env) (sig : Nat → Bool)
    (history : List NetflixViewingItem) (s fuel i : Nat) (m : Store)
    (p : PersistState) (E : List Event) (hi : i < history.length) :
    processLoop env sig history s (fuel + 1) i false m p E =
      processLoop env sig history s fuel (i + 40)
        (if sig i then cancelProcessing (false, p) else (false, p)).1
        (processBatch env ((history.drop i).take 40) m)
        (if i % 10 == 0 && decide (i > s) then
          saveProcessingState
            (if sig i then cancelProcessing (false, p) else (false, p)).2
            history i
            ((processBatch env ((history.drop i).take 40) m).map Prod.snd)
        else (if sig i then cancelProcessing (false, p) else (false, p)).2)
        ((E ++ [Event.progress (i + ((history.drop i).take 40).length)
            history.length]) ++
          (if ((history.drop i).take 40).length > 0 then
            reportEvents (processBatch env ((history.drop i).take 40) m)
              ((history.drop i).take 40)
          else [])) := by
  rw [processLoop]
  simp only [hi, if_true, Bool.false_eq_true, if_false]

/-- One unfolding step of the loop: the check honors a raised flag. -/
theorem processLoop_succ_flagged (env : Env) (sig : Nat → Bool)
    (history : List NetflixViewingItem) (s fuel i : Nat) (m : Store)
    (p : PersistState) (E : List Event) (hi : i < history.length) :
    processLoop env sig history s (fuel + 1) i true m p E =
      { mediaItems := m.map Prod.snd, cancelled := true, store := m,
        flag := true, persist := p, events := E } := by
  rw [processLoop]
  simp [hi]

/-- One unfolding step of the loop: all batches consumed. -/
theorem processLoop_exit (env : Env) (sig : Nat → Bool)
    (history : List NetflixViewingItem) (s fuel i : Nat) (flag : Bool)
    (m : Store) (p : PersistState) (E : List Event)
    (hi : ¬ i < history.length) :
    processLoop env sig history s (fuel + 1) i flag m p E =
      { mediaItems := sortByDateDesc env (m.map Prod.snd), cancelled := false,
        store := m, flag := flag, persist := completeProcessing p,
        events := E ++ [Event.completion] } := by
  rw [processLoop]
  simp [hi]

/-- A `cancelProcessing` call arriving during the batch at index `j`,
with at least one more batch pending: the run merges exactly the batches
through `j`, returns the accumulated (unsorted) store with
`cancelled = true`, fires no completion, and its callback trace is a
prefix of the same run's uninterrupted trace. -/
theorem processLoop_cancel_single (env : Env)
    (history : List NetflixViewingItem) (j : Nat) :
    ∀ (fuel i : Nat) (m : Store) (p p' : PersistState) (E : List Event),
      i ≤ j → (j - i) % 40 = 0 → j + 40 < history.length →
      history.length - i < fuel → Event.completion ∉ E →
      (processLoop env (fun x => x == j) history 0 fuel i false m p E).cancelled =
        true ∧
      (processLoop env (fun x => x == j) history 0 fuel i false m p E).store =
        List.foldl (fun acc it => processViewingItem env it acc) m
          ((history.drop i).take (j + 40 - i)) ∧
      (processLoop env (fun x => x == j) history 0 fuel i false m p E).mediaItems =
        (processLoop env (fun x => x == j) history 0 fuel i false m p E).store.map
          Prod.snd ∧
      Event.completion ∉
        (processLoop env (fun x => x == j) history 0 fuel i false m p E).events ∧
      (∃ t,
        (processLoop env (fun _ => false) history 0 fuel i false m p' E).events =
          (processLoop env (fun x => x == j) history 0 fuel i false m p E).events ++
            t) := by
  intro fuel
  induction fuel with
  | zero =>
    intro i m p p' E h1 h2 h3 h4 h5
    omega
  | succ fuel ih =>
    intro i m p p' E hij halign hjlen hfuel hE
    have hi : i < history.length := by omega
    have hE2 : Event.completion ∉
        ((E ++ [Event.progress (i + ((history.drop i).take 40).length)
            history.length]) ++
          (if 0 < ((history.drop i).take 40).length then
            reportEvents (processBatch env ((history.drop i).take 40) m)
              ((history.drop i).take 40)
          else [])) := by
      intro hc
      rcases List.mem_append.mp hc with hc | hc
      · rcases List.mem_append.mp hc with hc | hc
        · exact hE hc
        · simp at hc
      · revert hc
        split
        · exact reportEvents_no_completion _ _
        · simp
    rw [processLoop_succ_lt env _ history 0 fuel i m p E hi,
      processLoop_succ_lt env _ history 0 fuel i m p' E hi]
    by_cases hieq : i = j
    · subst hieq
      have hsig : ((fun x => x == i) i) = true := by simp
      have hnosig : ((fun _ : Nat => false) i) = false := rfl
      simp only [hsig, hnosig, if_true, Bool.false_eq_true, if_false,
        cancelProcessing]
      cases fuel with
      | zero => omega
      | succ f =>
        have hi40 : i + 40 < history.length := hjlen
        rw [processLoop_succ_flagged env _ history 0 f (i + 40) _ _ _ hi40]
        refine ⟨rfl, ?_, rfl, hE2, ?_⟩
        · simp only [processBatch]
          have h40 : i + 40 - i = 40 := by omega
          rw [h40]
        · obtain ⟨t, ht⟩ := processLoop_events_extend env (fun _ => false)
            history 0 (f + 1) (i + 40) false
            (processBatch env ((history.drop i).take 40) m)
            (if i % 10 == 0 && decide (i > 0) then
              saveProcessingState p' history i
                ((processBatch env ((history.drop i).take 40) m).map Prod.snd)
            else p')
            ((E ++ [Event.progress (i + ((history.drop i).take 40).length)
                history.length]) ++
              (if ((history.drop i).take 40).length > 0 then
                reportEvents (processBatch env ((history.drop i).take 40) m)
                  ((history.drop i).take 40)
              else []))
          exact ⟨t, ht⟩
    · have hne : ((fun x => x == j) i) = false := by
        simp only [beq_eq_false_iff_ne]
        omega
      have hnosig : ((fun _ : Nat => false) i) = false := rfl
      simp only [hne, hnosig, Bool.false_eq_true, if_false]
      have hij2 : i + 40 ≤ j := by omega
      have halign2 : (j - (i + 40)) % 40 = 0 := by omega
      have hrec := ih (i + 40) (processBatch env ((history.drop i).take 40) m)
        (if i % 10 == 0 && decide (i > 0) then
          saveProcessingState p history i
            ((processBatch env ((history.drop i).take 40) m).map Prod.snd)
        else p)
        (if i % 10 == 0 && decide (i > 0) then
          saveProcessingState p' history i
            ((processBatch env ((history.drop i).take 40) m).map Prod.snd)
        else p')
        ((E ++ [Event.progress (i + ((history.drop i).take 40).length)
            history.length]) ++
          (if ((history.drop i).take 40).length > 0 then
            reportEvents (processBatch env ((history.drop i).take 40) m)
              ((history.drop i).take 40)
          else []))
        hij2 halign2 hjlen (by omega) hE2
      obtain ⟨h1, h2, h3, h4, h5⟩ := hrec
      refine ⟨h1, ?_, h3, h4, h5⟩
      rw [h2]
      simp only [processBatch]
      have hcomp : (history.drop i).take (j + 40 - i) =
          (history.drop i).take 40 ++ ((history.drop (i + 40)).take
            (j + 40 - (i + 40))) := by
        have hdd : history.drop (i + 40) = (history.drop i).drop 40 := by
          rw [List.drop_drop]
        have hsplit : j + 40 - i = 40 + (j + 40 - (i + 40)) := by omega
        rw [hdd, hsplit, List.take_add]
      rw [hcomp, List.foldl_append]

theorem keys_processBatch (env : Env) :
    ∀ (batch : List NetflixViewingItem) (m : Store),
      (m.map Prod.fst).Nodup →
      ((processBatch env batch m).map Prod.fst).Nodup := by
  intro batch
  induction batch with
  | nil =>
    intro m h
    simpa [processBatch] using h
  | cons r rs ih =>
    intro m h
    simp only [processBatch, List.foldl_cons]
    exact ih (processViewingItem env r m) (keys_processViewingItem env r m h)

theorem length_processBatch_le (env : Env) :
    ∀ (batch : List NetflixViewingItem) (m : Store),
      (processBatch env batch m).length ≤ m.length + batch.length := by
  intro batch
  induction batch with
  | nil =>
    intro m
    simp [processBatch]
  | cons r rs ih =>
    intro m
    have h1 := ih (processViewingItem env r m)
    have h2 := length_processViewingItem_le env r m
    simp only [processBatch, List.foldl_cons, List.length_cons] at h1 ⊢
    omega

/-- Whatever the cancellation timing, a loop run's store grows by at most
one entry per remaining record, keeps its keys pairwise distinct, and
returns at most one item per store entry. -/
theorem processLoop_bound (env : Env) (sig : Nat → Bool)
    (history : List NetflixViewingItem) (s : Nat) :
    ∀ (fuel i : Nat) (flag : Bool) (m : Store) (p : PersistState)
      (E : List Event),
      (m.map Prod.fst).Nodup →
      ((processLoop env sig history s fuel i flag m p E).store.map
        Prod.fst).Nodup ∧
      (processLoop env sig history s fuel i flag m p E).store.length ≤
        m.length + (history.length - i) ∧
      (processLoop env sig history s fuel i flag m p E).mediaItems.length ≤
        (processLoop env sig history s fuel i flag m p E).store.length := by
  intro fuel
  induction fuel with
  | zero =>
    intro i flag m p E h
    simp only [processLoop]
    exact ⟨h, by omega, by simp⟩
  | succ fuel ih =>
    intro i flag m p E h
    by_cases hi : i < history.length
    · by_cases hf : flag = true
      · subst hf
        rw [processLoop_succ_flagged env sig history s fuel i m p E hi]
        refine ⟨h, ?_, ?_⟩
        · simp
        · simp
      · rw [Bool.not_eq_true] at hf
        subst hf
        rw [processLoop_succ_lt env sig history s fuel i m p E hi]
        have hn := keys_processBatch env ((history.drop i).take 40) m h
        have hrec := ih (i + 40)
          ((if sig i then cancelProcessing (false, p) else (false, p)).1)
          (processBatch env ((history.drop i).take 40) m)
          (if i % 10 == 0 && decide (i > s) then
            saveProcessingState
              (if sig i then cancelProcessing (false, p) else (false, p)).2
              history i
              ((processBatch env ((history.drop i).take 40) m).map Prod.snd)
          else (if sig i then cancelProcessing (false, p) else (false, p)).2)
          ((E ++ [Event.progress (i + ((history.drop i).take 40).length)
              history.length]) ++
            (if ((history.drop i).take 40).length > 0 then
              reportEvents (processBatch env ((history.drop i).take 40) m)
                ((history.drop i).take 40)
            else []))
          hn
        obtain ⟨g1, g2, g3⟩ := hrec
        refine ⟨g1, ?_, g3⟩
        have hb := length_processBatch_le env ((history.drop i).take 40) m
        have hbl : ((history.drop i).take 40).length ≤ 40 := by
          simp [List.length_take]
        have hbl2 : ((history.drop i).take 40).length ≤ history.length - i := by
          have := List.length_take 40 (history.drop i)
          have := List.length_drop i history
          omega
        omega
    · rw [processLoop_exit env sig history s fuel i flag m p E hi]
      refine ⟨h, ?_, ?_⟩
      · simp
      · simp [sortByDateDesc, List.length_insertionSort]

/-- `processViewingHistory` is the batch loop started from a reset flag,
the supplied (or empty) store, and an empty callback trace. -/
theorem processViewingHistory_def (env : Env) (sig : Nat → Bool) (f : Bool)
    (vh : List NetflixViewingItem) (s : Nat) (em : Option Store)
    (p : PersistState) :
    processViewingHistory env sig f vh s em p =
      processLoop env sig vh s (vh.length + 1) s (resetCancellation f)
        (em.getD []) p [] := rfl

/-! ## Claim theorems -/

set_option maxRecDepth 100000

/-- C1 (code bug): the claim asserts that cancelling after batch k and
resuming from the persisted checkpoint yields the same final collection
as one uninterrupted run.  The code saves `processedCount = i` after the
batch starting at `i` has already been merged into `partialItems`, so the
resume reprocesses that whole batch.  On 81 identical matched records the
uninterrupted run tallies `watchCount = 81`, while the run cancelled
during its third check leaves a checkpoint `(processedCount = 40,
partialItems with watchCount = 80)` whose host-style resume (seed map
keyed by id-type, start at 40) ends with `watchCount = 121`:
records 40–79 are counted twice. -/
theorem C1_resume_double_counts :
    (mapGet (processViewingHistory envA noCancel false recsA 0 none
        emptyPersist).store "7-movie").map MediaItem.watchCount = some 81 ∧
    (processViewingHistory envA (fun i => i == 40) false recsA 0 none
      emptyPersist).cancelled = true ∧
    (loadProcessingState (processViewingHistory envA (fun i => i == 40) false
      recsA 0 none emptyPersist).persist).processedCount = 40 ∧
    ((loadProcessingState (processViewingHistory envA (fun i => i == 40) false
      recsA 0 none emptyPersist).persist).partItems.getD []).map
        MediaItem.watchCount = [80] ∧
    (mapGet (processViewingHistory envA noCancel false
        ((loadProcessingState (processViewingHistory envA (fun i => i == 40)
          false recsA 0 none emptyPersist).persist).viewingHistory.getD [])
        ((loadProcessingState (processViewingHistory envA (fun i => i == 40)
          false recsA 0 none emptyPersist).persist).processedCount)
        (some (hostSeedMap ((loadProcessingState (processViewingHistory envA
          (fun i => i == 40) false recsA 0 none
            emptyPersist).persist).partItems.getD [])))
        emptyPersist).store "7-movie").map MediaItem.watchCount = some 121 := by
  decide

/-- C2 (code bug): the claim asserts `watchCount = N` for N same-key
records even when their lookups run in one batch fan-out.  The create
path checks the map, then suspends inside `await createMediaItem` and
sets the key without re-checking, so two records whose searches both
resolve before either create completes each insert a fresh item and the
second overwrites the first: two records mapping to key `9-tv` end with
`watchCount = 1` under that interleaving, against 2 under the in-order
schedule. -/
theorem C2_fanout_lost_update :
    keyOf envB recB = "9-tv" ∧
    (mapGet (runBatchSchedule envB [recB, recB] [0, 1, 0, 1] []) "9-tv").map
      MediaItem.watchCount = some 1 ∧
    (mapGet (processBatch envB [recB, recB] []) "9-tv").map
      MediaItem.watchCount = some 2 := by
  decide

/-- C3 counterexample: in the earlier revision
(src/services/tmdbService.ts), a repeat of an unmatched title bumps only
the watch count and never the date, so after merging records dated 1 and
then 5 the produced item still carries the date valued 1 — not the
maximum 5 — even though the second record maps to the same merge key. -/
theorem C3_legacy_date_cex :
    (Legacy.processViewingHistory envC [recT1, recT5]).map
      (fun it => (it.id, envC.dateTime it.watchedDate, it.watchCount)) =
      [("unknown-T", (1 : Int), 2)] ∧
    keyOf envC recT5 = "unknown-T" ∧ envC.dateTime recT5.date = 5 := by
  decide

/-- C3 (amended): in the current pipeline revision, every MediaItem in an
uninterrupted run's store carries a watched date whose value is the
maximum `dateTime` among the records merged under its key — it is
attained by one of those records and bounds all of them. -/
theorem C3_date_max_invariant (env : Env) (recs : List NetflixViewingItem)
    (p : PersistState) (k : String) (it : MediaItem)
    (h : mapGet (processViewingHistory env noCancel false recs 0 none p).store
      k = some it) :
    env.dateTime it.watchedDate ∈ dateValsOf env recs k ∧
    ∀ d ∈ dateValsOf env recs k, d ≤ env.dateTime it.watchedDate := by
  have hstore := (processLoop_no_cancel env noCancel recs 0 (fun _ => rfl)
      (recs.length + 1) 0 [] p [] (by omega)).2.1
  rw [processViewingHistory_def] at h
  simp only [resetCancellation, Option.getD_none] at h
  rw [hstore] at h
  obtain ⟨_, hmem, hmax⟩ := (storeInv_run env recs k).2 it h
  exact ⟨hmem, hmax⟩

/-- Witness for C3: the date-max invariant evaluated on the two-record
unmatched example whose produced item keeps date `"d5"` (value 5). -/
theorem C3_date_max_invariant_witness :
    envC.dateTime itT5.watchedDate ∈ dateValsOf envC [recT1, recT5] "unknown-T" ∧
    ∀ d ∈ dateValsOf envC [recT1, recT5] "unknown-T",
      d ≤ envC.dateTime itT5.watchedDate :=
  C3_date_max_invariant envC [recT1, recT5] emptyPersist "unknown-T" itT5 rfl

/-- C4 (confirmed): whatever the cancellation timing, a run returns at
most one MediaItem per input record and its merge store — keyed exactly
by the merge keys — holds pairwise-distinct keys, so no two produced
items share a merge key. -/
theorem C4_dedup_invariant (env : Env) (sig : Nat → Bool) (f : Bool)
    (recs : List NetflixViewingItem) (p : PersistState) :
    ((processViewingHistory env sig f recs 0 none p).store.map Prod.fst).Nodup ∧
    (processViewingHistory env sig f recs 0 none p).mediaItems.length ≤
      recs.length := by
  obtain ⟨g1, g2, g3⟩ := processLoop_bound env sig recs 0 (recs.length + 1) 0
    (resetCancellation f) [] p [] (by simp)
  rw [processViewingHistory_def]
  simp only [Option.getD_none]
  refine ⟨g1, ?_⟩
  simp only [List.length_nil, Nat.sub_zero] at g2
  have := g2
  have := g3
  omega

/-- C5 counterexample: a cancellation signal raised during the final
batch is never observed by a later check — the run still fires the
completion side effects and returns `cancelled = false`, refuting the
claim that once the flag is set no completion fires and the run returns
`cancelled = true`. -/
theorem C5_terminal_cancel_cex :
    (processViewingHistory envA (fun i => i == 0) false [recA] 0 none
      emptyPersist).flag = true ∧
    (processViewingHistory envA (fun i => i == 0) false [recA] 0 none
      emptyPersist).cancelled = false ∧
    Event.completion ∈ (processViewingHistory envA (fun i => i == 0) false
      [recA] 0 none emptyPersist).events := by
  decide

/-- C5 (amended): a cancellation signalled during the batch at index j is
honored at the next batch-boundary check (when one exists): the run
merges exactly the batches through j, returns the accumulated store with
`cancelled = true`, fires no completion side effects, and its callback
trace is a prefix of the uninterrupted run's trace — no further progress
or discovery callbacks fire.  The current batch still completes and
reports, and a signal during the final iteration is never honored. -/
theorem C5_cancellation_at_check (env : Env) (recs : List NetflixViewingItem)
    (p p' : PersistState) (j : Nat) (halign : j % 40 = 0)
    (hj : j + 40 < recs.length) :
    (processViewingHistory env (fun x => x == j) false recs 0 none p).cancelled =
      true ∧
    (processViewingHistory env (fun x => x == j) false recs 0 none p).store =
      (recs.take (j + 40)).foldl (fun acc it => processViewingItem env it acc)
        [] ∧
    (processViewingHistory env (fun x => x == j) false recs 0 none
      p).mediaItems =
      (processViewingHistory env (fun x => x == j) false recs 0 none
        p).store.map Prod.snd ∧
    Event.completion ∉
      (processViewingHistory env (fun x => x == j) false recs 0 none p).events ∧
    (∃ t,
      (processViewingHistory env (fun _ => false) false recs 0 none p').events =
        (processViewingHistory env (fun x => x == j) false recs 0 none
          p).events ++ t) := by
  have h := processLoop_cancel_single env recs j (recs.length + 1) 0 [] p p' []
    (by omega) (by omega) hj (by omega) (by simp)
  exact ⟨h.1, h.2.1, h.2.2.1, h.2.2.2.1, h.2.2.2.2⟩

/-- Witness for C5: 41 records, signal during the first batch, honored at
the check before the second. -/
theorem C5_cancellation_at_check_witness :
    (processViewingHistory envA (fun x => x == 0) false recs41 0 none
      emptyPersist).cancelled = true ∧
    (processViewingHistory envA (fun x => x == 0) false recs41 0 none
      emptyPersist).store =
      (recs41.take (0 + 40)).foldl
        (fun acc it => processViewingItem envA it acc) [] ∧
    (processViewingHistory envA (fun x => x == 0) false recs41 0 none
      emptyPersist).mediaItems =
      (processViewingHistory envA (fun x => x == 0) false recs41 0 none
        emptyPersist).store.map Prod.snd ∧
    Event.completion ∉
      (processViewingHistory envA (fun x => x == 0) false recs41 0 none
        emptyPersist).events ∧
    (∃ t,
      (processViewingHistory envA (fun _ => false) false recs41 0 none
        emptyPersist).events =
        (processViewingHistory envA (fun x => x == 0) false recs41 0 none
          emptyPersist).events ++ t) :=
  C5_cancellation_at_check envA recs41 emptyPersist emptyPersist 0 (by decide)
    (by decide)

/-- C6 counterexample: signalling cancellation does not leave the saved
checkpoint unchanged — `cancelProcessing` clears it: after a save the
liveness key reads true and the checkpoint index loads as 40, but after
`cancelProcessing` the persisted state differs, its viewing history is
gone and `loadProcessingState` reports no processing in flight. -/
theorem C6_cancel_clears_checkpoint_cex :
    (saveProcessingState emptyPersist [recA] 40 []).processingActive = true ∧
    (loadProcessingState
      (saveProcessingState emptyPersist [recA] 40 [])).processedCount = 40 ∧
    (cancelProcessing (false, saveProcessingState emptyPersist [recA] 40 [])).2 ≠
      saveProcessingState emptyPersist [recA] 40 [] ∧
    (cancelProcessing
      (false, saveProcessingState emptyPersist [recA] 40 [])).2.viewingHistory =
      none ∧
    (loadProcessingState (cancelProcessing
      (false, saveProcessingState emptyPersist [recA] 40 [])).2).isProcessing =
      false := by
  decide

/-- C6 (amended): signalling cancellation sets the flag and removes the
persisted checkpoint (all four checkpoint keys cleared, so no resumable
state remains), while leaving the completed-results keys untouched. -/
theorem C6_cancel_clears_checkpoint (b : Bool) (p : PersistState) :
    cancelProcessing (b, p) =
      (true,
        { p with
            viewingHistory := none
            processedCount := none
            partItems := none
            processingActive := false }) ∧
    (cancelProcessing (b, p)).2.mediaItemsSaved = p.mediaItemsSaved ∧
    (cancelProcessing (b, p)).2.statsSaved = p.statsSaved ∧
    (cancelProcessing (b, p)).2.timestampSaved = p.timestampSaved ∧
    (loadProcessingState (cancelProcessing (b, p)).2).isProcessing = false := by
  exact ⟨rfl, rfl, rfl, rfl, rfl⟩

/-- C7 counterexample: the capped revision of `parseNetflixCSV` drops
valid rows — 51 rows each holding a title and a date yield only 50
records, so ingestion is not one record per valid row there. -/
theorem C7_capped_drops_rows_cex :
    (List.replicate 51 vrow).length = 51 ∧
    ((List.replicate 51 vrow).filter
      (fun item => jsTruthy item.Title && jsTruthy item.Date)).length = 51 ∧
    (CsvCapped.parseNetflixCSV (List.replicate 51 vrow)).length = 50 := by
  decide

/-- C7 (amended): the uncapped revision produces exactly one record per
row with a (truthy) title and date, silently dropping the rest and
nothing else — counts match the valid-row count and parsing distributes
over concatenation; the other revision merely truncates that output to
its first 50 records. -/
theorem C7_ingestion_filter (rows rows2 : List CSVData) :
    (CsvFull.parseNetflixCSV rows).length =
      (rows.filter (fun item => jsTruthy item.Title && jsTruthy item.Date)).length ∧
    CsvFull.parseNetflixCSV (rows ++ rows2) =
      CsvFull.parseNetflixCSV rows ++ CsvFull.parseNetflixCSV rows2 ∧
    CsvCapped.parseNetflixCSV rows = (CsvFull.parseNetflixCSV rows).take 50 := by
  refine ⟨?_, ?_, rfl⟩
  · simp [CsvFull.parseNetflixCSV]
  · simp [CsvFull.parseNetflixCSV, List.filter_append]

/-- C8 (confirmed): a record whose cleaned-title search returns no
candidates yields a MediaItem stored under the unmatched key built from
its original title (spelled `unknown-<originalTitle>` in the code), with
kind defaulted to movie, and repeats of the exact same title string
increment that one item's watch count instead of creating another item —
its count is exactly the number of same-titled records.  The hypothesis
`hcol` rules out a matched result forging the same key string. -/
theorem C8_unmatched_fallback (env : Env) (recs : List NetflixViewingItem)
    (p : PersistState) (r : NetflixViewingItem) (hr : r ∈ recs)
    (hempty : env.search (cleanTitle r.title) = [])
    (hcol : ∀ r' ∈ recs, ∀ result rest,
      env.search (cleanTitle r'.title) = result :: rest →
      result.id ++ "-" ++ jsMediaType result ≠ "unknown-" ++ r.title) :
    ∃ it,
      mapGet (processViewingHistory env noCancel false recs 0 none p).store
        ("unknown-" ++ r.title) = some it ∧
      it.type = "movie" ∧ it.id = "unknown-" ++ r.title ∧ it.title = r.title ∧
      it.watchCount = (recs.filter (fun x => x.title == r.title)).length := by
  have hstore : (processViewingHistory env noCancel false recs 0 none p).store =
      recs.foldl (fun acc it => processViewingItem env it acc) [] :=
    (processLoop_no_cancel env noCancel recs 0 (fun _ => rfl)
      (recs.length + 1) 0 [] p [] (by omega)).2.1
  have hkr : keyOf env r = "unknown-" ++ r.title := by
    unfold keyOf
    rw [hempty]
  have hpt : ∀ x ∈ recs, (keyOf env x == "unknown-" ++ r.title) =
      (x.title == r.title) := by
    intro x hx
    cases hsx : env.search (cleanTitle x.title) with
    | cons result rest =>
      have hne := hcol x hx result rest hsx
      have hkx : keyOf env x = result.id ++ "-" ++ jsMediaType result := by
        unfold keyOf
        rw [hsx]
      have hL : (keyOf env x == "unknown-" ++ r.title) = false := by
        rw [hkx]
        exact beq_eq_false_iff_ne.mpr hne
      have hR : (x.title == r.title) = false := by
        rw [beq_eq_false_iff_ne]
        intro hteq
        rw [hteq, hempty] at hsx
        exact List.noConfusion hsx
      rw [hL, hR]
    | nil =>
      have hkx : keyOf env x = "unknown-" ++ x.title := by
        unfold keyOf
        rw [hsx]
      rw [hkx]
      by_cases hte : x.title = r.title
      · rw [hte]
        simp
      · have hq : "unknown-" ++ x.title ≠ "unknown-" ++ r.title := by
          intro hq
          exact hte (string_append_left_cancel hq)
        rw [beq_eq_false_iff_ne.mpr hq, beq_eq_false_iff_ne.mpr hte]
  have hcount : countKey env recs ("unknown-" ++ r.title) =
      (recs.filter (fun x => x.title == r.title)).length := by
    unfold countKey
    congr 1
    exact List.filter_congr hpt
  have hone : 1 ≤ countKey env recs ("unknown-" ++ r.title) := by
    unfold countKey
    have hmem : r ∈ recs.filter
        (fun x => keyOf env x == ("unknown-" ++ r.title)) :=
      List.mem_filter.mpr ⟨hr, by rw [hkr]; simp⟩
    exact List.length_pos.mpr (List.ne_nil_of_mem hmem)
  have hinv := storeInv_run env recs
  have hcond : ∀ x ∈ recs, keyOf env x = "unknown-" ++ r.title →
      env.search (cleanTitle x.title) = [] ∧ x.title = r.title := by
    intro x hx hkx
    have hbt : (x.title == r.title) = true := by
      rw [← hpt x hx]
      simp [hkx]
    have hte : x.title = r.title := beq_iff_eq.mp hbt
    refine ⟨?_, hte⟩
    rw [hte]
    exact hempty
  cases hit : mapGet (recs.foldl (fun acc it => processViewingItem env it acc)
      []) ("unknown-" ++ r.title) with
  | none =>
    have h0 := (hinv ("unknown-" ++ r.title)).1 hit
    omega
  | some it =>
    obtain ⟨hc, _, _⟩ := (hinv ("unknown-" ++ r.title)).2 it hit
    obtain ⟨hty, hid, hti⟩ := unmatchedShape_fold env r.title recs []
      (unmatchedShape_nil _) hcond it hit
    refine ⟨it, ?_, hty, hid, hti, ?_⟩
    · rw [hstore]
      exact hit
    · rw [hc, hcount]

/-- Witness for C8: two same-titled records, searches empty, one item
with count 2. -/
theorem C8_unmatched_fallback_witness :
    ∃ it,
      mapGet (processViewingHistory envC noCancel false [recT1, recT5] 0 none
        emptyPersist).store ("unknown-" ++ recT1.title) = some it ∧
      it.type = "movie" ∧ it.id = "unknown-" ++ recT1.title ∧
      it.title = recT1.title ∧
      it.watchCount = ([recT1, recT5].filter
        (fun x => x.title == recT1.title)).length :=
  C8_unmatched_fallback envC [recT1, recT5] emptyPersist recT1 (by simp) rfl
    (fun r' _ result rest h => List.noConfusion h)

/-- C9 (confirmed): on an empty viewing history the run returns zero
MediaItems and completes without cancellation (one completion mark, no
other callbacks), and `generateStats` of an empty collection is a
snapshot with zero totals and empty histograms and lists — no exception
path exists. -/
theorem C9_empty_input (env : Env) (sig : Nat → Bool) (f : Bool)
    (p : PersistState) :
    (processViewingHistory env sig f [] 0 none p).mediaItems = [] ∧
    (processViewingHistory env sig f [] 0 none p).cancelled = false ∧
    (processViewingHistory env sig f [] 0 none p).events =
      [Event.completion] ∧
    generateStats env [] =
      { totalWatched := 0, movieCount := 0, tvCount := 0, watchedByDay := [],
        watchedByMonth := [], watchedByYear := [], mostWatchedShows := [],
        continueWatchingShows := [] } := by
  exact ⟨rfl, rfl, rfl, rfl⟩

/-- C10 (confirmed): `processViewingHistory` resets the module flag
before its first check, so a pre-run cancellation signal is discarded:
with no signal during the run, the result does not depend on the prior
flag value, every record is merged, the run completes and returns
`cancelled = false`. -/
theorem C10_reset_discards_preflag (env : Env) (sig : Nat → Bool)
    (initialFlag : Bool) (recs : List NetflixViewingItem) (p : PersistState)
    (hsig : ∀ i, sig i = false) :
    processViewingHistory env sig initialFlag recs 0 none p =
      processViewingHistory env sig false recs 0 none p ∧
    (processViewingHistory env sig initialFlag recs 0 none p).cancelled =
      false ∧
    (processViewingHistory env sig initialFlag recs 0 none p).store =
      recs.foldl (fun acc it => processViewingItem env it acc) [] ∧
    Event.completion ∈
      (processViewingHistory env sig initialFlag recs 0 none p).events := by
  have h := processLoop_no_cancel env sig recs 0 hsig (recs.length + 1) 0 [] p
    [] (by omega)
  exact ⟨rfl, h.1, h.2.1, h.2.2.2.1⟩

/-- Witness for C10: the flag set before a 41-record run is discarded and
the run completes. -/
theorem C10_reset_discards_preflag_witness :
    (processViewingHistory envA noCancel true recs41 0 none
      emptyPersist).cancelled = false ∧
    Event.completion ∈
      (processViewingHistory envA noCancel true recs41 0 none
        emptyPersist).events :=
  ⟨(C10_reset_discards_preflag envA noCancel true recs41 emptyPersist
      (fun _ => rfl)).2.1,
   (C10_reset_discards_preflag envA noCancel true recs41 emptyPersist
      (fun _ => rfl)).2.2.2⟩

end Iquit
